import Mathlib

/-!
Verification development for the DM-Simulator repository (kubkon/DM-Simulator).

The definitions below are a shallow embedding of `src/simulator/modules/dm.py`
(the implementation imported by `src/main.py`; the `src/des/` package is a
legacy copy that no entry point imports), together with the error classes
declared in `src/simulator/errors.py`.  Python floats are embedded as exact
rationals (`ℚ`), Python ints as `ℕ`, Python lists as `List`, and the
`_dedicated_bitrates` dict as an association list with unique keys.  Code that
can raise returns `Except PyError`.  The event record of
`simulator/modules/sim.py` (absent from the sources; only its tests remain) is
modelled from the spec, as marked below.
-/

namespace DMSim

/-- Exceptions that the embedded code can raise.  `attributeError`, `keyError`,
`indexError`, `typeError` and `zeroDivisionError` are Python built-ins;
`baseError`, `biddingMethodError`, `reputationUpdateMethodError` and
`uninitializedArgumentError` are the classes that `src/simulator/errors.py`
actually defines.  `unknownMethodError` and `unknownRequestError` are the class
names used by the spec (and by the `raise` statements / tests for the former);
they are included so that claims about them are statable — no definition in
this file ever produces them, mirroring the sources. -/
inductive PyError where
  | attributeError
  | keyError
  | indexError
  | typeError
  | zeroDivisionError
  | baseError
  | biddingMethodError
  | reputationUpdateMethodError
  | uninitializedArgumentError
  | unknownMethodError
  | unknownRequestError
deriving DecidableEq, Repr

/-- The class names bound in the module `src/simulator/errors.py`
(`class Error`, `class BiddingMethodError`, `class ReputationUpdateMethodError`,
`class UninitializedArgumentError`). -/
def errorsModuleDefinedClasses : List String :=
  ["Error", "BiddingMethodError", "ReputationUpdateMethodError",
   "UninitializedArgumentError"]

/-- Evaluating `errors.<name>` at a `raise errors.<name>(...)` site: if the
`errors` module defines the class, that class is raised; otherwise the
attribute lookup itself fails with `AttributeError`. -/
def raiseErrorsClass (name : String) : PyError :=
  if name ∈ errorsModuleDefinedClasses then
    if name = "BiddingMethodError" then .biddingMethodError
    else if name = "ReputationUpdateMethodError" then .reputationUpdateMethodError
    else if name = "UninitializedArgumentError" then .uninitializedArgumentError
    else .baseError
  else .attributeError

/-- The two modelled service types (`DMEventHandler.WEB_BROWSING = 1`,
`DMEventHandler.EMAIL = 2`). -/
inductive ServiceType where
  | webBrowsing
  | email
deriving DecidableEq, Repr

/-- `DMEventHandler.BITRATES = {WEB_BROWSING: 512, EMAIL: 256}`. -/
def BITRATES : ServiceType → ℕ
  | .webBrowsing => 512
  | .email => 256

/-- A bid as returned by `BidderHelper.myopic_bidding`: a finite float
(embedded as `ℚ`) or `float('inf')` (`price_weight == 0` branch). -/
inductive BidValue where
  | finite (q : ℚ)
  | infinite
deriving DecidableEq, Repr

/-- A strategy resolved by `BidderHelper.method`: one of the three registry
entries, bound to its declared parameters
(`lebodic` with `window_size`, `mcdiarmid` with `commitment`, `myopic` with no
bound parameter). -/
inductive BoundMethod where
  | lebodic (window_size : ℕ)
  | mcdiarmid (commitment : ℚ)
  | myopic
deriving DecidableEq, Repr

/-- The keys that `BidderHelper.method` reads from its `params` dict:
`'method'`, and the method-specific `'window_size'` / `'commitment'`.
An absent dict key is `none`. -/
structure MethodParams where
  method : Option String
  window_size : Option ℕ
  commitment : Option ℚ
deriving DecidableEq, Repr

/-- `BidderHelper.method` from `src/simulator/modules/dm.py` lines 47–65:
raises (the nonexistent) `errors.UnknownMethodError` when the `'method'` key is
missing, when it names no entry of `implemented_methods`, or when a parameter
declared by the named entry (`['window_size']` for `'lebodic'`,
`['commitment']` for `'mcdiarmid'`, `[]` for `'myopic'`) is absent; otherwise
returns `functools.partial(method, *args)`, i.e. the named function bound to
its declared parameters. -/
def BidderHelper_method (params : MethodParams) : Except PyError BoundMethod :=
  match params.method with
  | none => .error (raiseErrorsClass "UnknownMethodError")
  | some name =>
    if name = "lebodic" then
      match params.window_size with
      | none => .error (raiseErrorsClass "UnknownMethodError")
      | some ws => .ok (.lebodic ws)
    else if name = "mcdiarmid" then
      match params.commitment with
      | none => .error (raiseErrorsClass "UnknownMethodError")
      | some c => .ok (.mcdiarmid c)
    else if name = "myopic" then .ok .myopic
    else .error (raiseErrorsClass "UnknownMethodError")

/-- `BidderHelper.lebodics_reputation_update` (dm.py lines 141–154).  The
success-list entries are the ints 0/1 appended by `_update_success_list`.
`sum(...) / window_size` is Python float division: it raises
`ZeroDivisionError` when `window_size == 0` (and that branch is reached),
otherwise it is exact division, embedded in `ℚ`.  The function reads
`success_list[len-window_size:]` and mutates nothing. -/
def lebodics_reputation_update (window_size : ℕ) (reputation : ℚ)
    (success_list : List ℕ) : Except PyError ℚ :=
  if window_size ≤ success_list.length then
    if window_size = 0 then .error .zeroDivisionError
    else .ok (1 - ((success_list.drop (success_list.length - window_size)).sum : ℚ)
                  / (window_size : ℚ))
  else .ok reputation

/-- `BidderHelper.mcdiarmids_reputation_update` (dm.py lines 156–170).
`success_list[-1]` raises `IndexError` on an empty list; a trailing success
(truthy entry) decreases reputation by 0.01 floored at 0; a trailing failure
adds `commitment / 100 / (1-commitment)` capped at 1 (Python float division by
zero when `commitment == 1`). -/
def mcdiarmids_reputation_update (commitment reputation : ℚ)
    (success_list : List ℕ) : Except PyError ℚ :=
  match success_list.getLast? with
  | none => .error .indexError
  | some s =>
    if s ≠ 0 then
      .ok (if 1/100 ≤ reputation then reputation - 1/100 else 0)
    else
      if (1 : ℚ) - commitment = 0 then .error .zeroDivisionError
      else
        .ok (if reputation + commitment / 100 / (1 - commitment) ≤ 1 then
               reputation + commitment / 100 / (1 - commitment)
             else 1)

/-- The numeric core of `BidderHelper.myopic_bidding`: the
`estimate_bid_hat_function` sampling plus the arg-min matching of dm.py lines
129–133, i.e. the bid returned in the `price_weight ∉ {0,1} ∧ reputation ≠
enemy_reputation` branch as a function of
`(price_weight, cost, reputation, enemy_reputation)`.  It is floating-point
numerics (numpy `exp`/`linspace`), kept abstract: every theorem below
quantifies over it. -/
def NumericBid : Type := ℚ → ℚ → ℚ → ℚ → ℚ

/-- `BidderHelper.myopic_bidding` (dm.py lines 128–139): the nontrivial
equilibrium branch when `price_weight` is neither 0 nor 1 and the reputations
differ; `float('inf')` when `price_weight == 0`; `(1 + cost) / 2` otherwise. -/
def myopic_bidding (nb : NumericBid) (price_weight cost reputation
    enemy_reputation : ℚ) : BidValue :=
  if price_weight ≠ 0 ∧ price_weight ≠ 1 ∧ reputation ≠ enemy_reputation then
    .finite (nb price_weight cost reputation enemy_reputation)
  else if price_weight = 0 then .infinite
  else .finite ((1 + cost) / 2)

/-- Applying a bound reputation-update strategy with the per-call arguments
`(reputation, success_list)` (dm.py line 380).  Calling the bound `myopic`
function with these two arguments is an arity mismatch, a Python `TypeError`. -/
def applyReputationMethod : BoundMethod → ℚ → List ℕ → Except PyError ℚ
  | .lebodic ws, reputation, success_list =>
    lebodics_reputation_update ws reputation success_list
  | .mcdiarmid c, reputation, success_list =>
    mcdiarmids_reputation_update c reputation success_list
  | .myopic, _, _ => .error .typeError

/-- Applying a bound bidding strategy with the per-call arguments
`(price_weight, cost, reputation, enemy_reputation)` (dm.py line 311).
Calling a bound reputation update with these four arguments is an arity
mismatch, a Python `TypeError`. -/
def applyBiddingMethod (nb : NumericBid) :
    BoundMethod → ℚ → ℚ → ℚ → ℚ → Except PyError BidValue
  | .myopic, w, cost, reputation, enemy_reputation =>
    .ok (myopic_bidding nb w cost reputation enemy_reputation)
  | .lebodic _, _, _, _, _ => .error .typeError
  | .mcdiarmid _, _, _, _, _ => .error .typeError

/-- Modelled from the spec: a value drawn by `prng.uniform(0,1)` — the
process-wide random source's uniform draw over the unit interval (the
`SimulationEngine` singleton of `simulator/modules/sim.py` is absent from the
sources; the spec specifies a process-wide deterministic generator). -/
structure UnitDraw where
  val : ℚ
  nonneg : 0 ≤ val
  le_one : val ≤ 1

/-- Modelled from the spec: the shared deterministic pseudo-random source,
as the streams of successive draws it will produce — `uniform n` is the
`(n+1)`-st `prng.uniform(0,1)` draw and `randint2 n` the `(n+1)`-st
`prng.randint(2)` draw — together with cursors recording how many draws of
each kind have been consumed. -/
structure PRNG where
  uniform : ℕ → UnitDraw
  randint2 : ℕ → Fin 2
  uIdx : ℕ
  rIdx : ℕ

/-- Consume one `prng.uniform(0,1)` draw. -/
def nextUniform (p : PRNG) : ℚ × PRNG :=
  ((p.uniform p.uIdx).val, { p with uIdx := p.uIdx + 1 })

/-- Consume one `prng.randint(2)` draw. -/
def nextRandint2 (p : PRNG) : Fin 2 × PRNG :=
  (p.randint2 p.rIdx, { p with rIdx := p.rIdx + 1 })

/-- The mutable state of a `Bidder` (dm.py lines 180–219), plus the two
strategies bound at construction time (`_bidding_method`,
`_reputation_update_method`).  `_costs` is a dict service type → cost,
`_dedicated_bitrates` a dict SR number → dedicated bit-rate, embedded as an
association list. -/
structure Bidder where
  costs : ServiceType → Option ℚ
  reputation : ℚ
  total_bitrate : ℕ
  available_bitrate : ℕ
  reputation_history : List ℚ
  winning_history : List ℕ
  success_list : List ℕ
  dedicated_bitrates : List (ℕ × ℕ)
  bidding_method : BoundMethod
  reputation_update_method : BoundMethod

/-- Python dict assignment `d[k] = v`: any existing binding of `k` is replaced. -/
def dictSet (d : List (ℕ × ℕ)) (k v : ℕ) : List (ℕ × ℕ) :=
  (k, v) :: d.eraseP (fun kv => kv.1 == k)

/-- Python `del d[k]` after a successful lookup of `k`. -/
def dictDel (d : List (ℕ × ℕ)) (k : ℕ) : List (ℕ × ℕ) :=
  d.eraseP (fun kv => kv.1 == k)

/-- `Bidder._generate_cost` (dm.py lines 283–295): if no cost is memoized for
the service type, draw `prng.uniform(0,1)` from the shared source and store
it; otherwise leave the dict untouched (and consume no draw). -/
def generate_cost (b : Bidder) (p : PRNG) (st : ServiceType) : Bidder × PRNG :=
  match b.costs st with
  | some _ => (b, p)
  | none =>
    let (c, p1) := nextUniform p
    ({ b with costs := fun st2 => if st2 = st then some c else b.costs st2 }, p1)

/-- `Bidder.submit_bid` (dm.py lines 297–311): ensure a cost exists for the
service type, append the current reputation to `_reputation_history`, then
delegate to the bound bidding method with
`(price_weight, cost, reputation, enemy_reputation)`.  The result is the
bid (or the exception the bound method raises); the returned `Bidder` and
`PRNG` are the object state and random source after the call — the two
mutations precede the delegation, so they are in place even when the
delegation raises. -/
def submit_bid (nb : NumericBid) (b : Bidder) (p : PRNG) (st : ServiceType)
    (price_weight enemy_reputation : ℚ) :
    Except PyError BidValue × Bidder × PRNG :=
  let gcp := generate_cost b p st
  let b2 := { gcp.1 with
              reputation_history := gcp.1.reputation_history ++ [gcp.1.reputation] }
  match b2.costs st with
  | none => (.error .keyError, b2, gcp.2)
  | some cost =>
    (applyBiddingMethod nb b2.bidding_method price_weight cost b2.reputation
       enemy_reputation, b2, gcp.2)

/-- `Bidder.update_winning_history` (dm.py lines 313–324): append the running
win count (previous last entry plus 1 on a win, carried forward on a loss). -/
def update_winning_history (b : Bidder) (has_won : Bool) : Bidder :=
  let value : ℕ := if has_won then 1 else 0
  match b.winning_history.getLast? with
  | some last => { b with winning_history := b.winning_history ++ [last + value] }
  | none => { b with winning_history := b.winning_history ++ [value] }

/-- `Bidder._update_available_bitrate` (dm.py lines 326–350).  With a service
type (allocation): dedicate the full bit-rate requirement when available,
otherwise dedicate all remaining bit-rate and drop to 0.  Without one
(release): look the SR number up in `_dedicated_bitrates` — a `KeyError` when
absent — then delete the record and return the bit-rate to the pool.  (The
Python `if service_type:` test is a truthiness test; both service types, 1 and
2, are truthy, and the release call passes no service type.) -/
def update_available_bitrate (b : Bidder) (sr_number : ℕ)
    (service_type : Option ServiceType) : Except PyError Bidder :=
  match service_type with
  | some st =>
    let sr_bitrate := BITRATES st
    if sr_bitrate ≤ b.available_bitrate then
      .ok { b with dedicated_bitrates := dictSet b.dedicated_bitrates sr_number sr_bitrate,
                   available_bitrate := b.available_bitrate - sr_bitrate }
    else
      .ok { b with dedicated_bitrates := dictSet b.dedicated_bitrates sr_number b.available_bitrate,
                   available_bitrate := 0 }
  | none =>
    match b.dedicated_bitrates.lookup sr_number with
    | none => .error .keyError
    | some v =>
      .ok { b with dedicated_bitrates := dictDel b.dedicated_bitrates sr_number,
                   available_bitrate := b.available_bitrate + v }

/-- `Bidder._update_success_list` (dm.py lines 352–364): append 1 when the
available bit-rate covers the service's requirement, else 0. -/
def update_success_list (b : Bidder) (st : ServiceType) : Bidder :=
  { b with success_list :=
      b.success_list ++ [if BITRATES st ≤ b.available_bitrate then 1 else 0] }

/-- `Bidder.service_request` (dm.py lines 366–381): append the success
indicator, allocate bit-rate for the request, then replace the reputation by
the bound reputation-update strategy applied to
`(reputation, success_list)`. -/
def service_request (b : Bidder) (sr_number : ℕ) (st : ServiceType) :
    Except PyError Bidder :=
  let b1 := update_success_list b st
  match update_available_bitrate b1 sr_number (some st) with
  | .error e => .error e
  | .ok b2 =>
    match applyReputationMethod b2.reputation_update_method b2.reputation
        b2.success_list with
    | .error e => .error e
    | .ok r => .ok { b2 with reputation := r }

/-- `Bidder.finish_servicing_request` (dm.py lines 383–391): release the
bit-rate dedicated to the request. -/
def finish_servicing_request (b : Bidder) (sr_number : ℕ) :
    Except PyError Bidder :=
  update_available_bitrate b sr_number none

/-- The `bundle` payload carried by an event: `(price_weight, service_type)`
for a service-request event, `(winner, sr_number)` for a service-termination
event (the winner object embedded as its index in the two-element bidders
list), or no bundle. -/
inductive Payload where
  | srInfo (price_weight : ℚ) (service_type : ServiceType)
  | stInfo (winner : Fin 2) (sr_number : ℕ)
  | noBundle
deriving DecidableEq, Repr

/-- `DMEventHandler.SR_EVENT`. -/
def SR_EVENT : String := "service_request"

/-- `DMEventHandler.ST_EVENT`. -/
def ST_EVENT : String := "service_termination"

/-- Modelled from the spec: the `sim.Event` record of
`simulator/modules/sim.py`, which is absent from the sources (its tests and
callers remain) — an immutable record of type identifier, scheduled time and
opaque payload. -/
structure Event where
  identifier : String
  time : ℚ
  payload : Payload
deriving DecidableEq, Repr

/-- Unpacking `price_weight, service_type = event.kwargs.get('bundle', None)`
inside `_run_auction`; a payload that is not a service-request bundle cannot
bind the two names (`handle_event` only routes SR events here). -/
def event_sr_bundle (e : Event) : Except PyError (ℚ × ServiceType) :=
  match e.payload with
  | .srInfo w st => .ok (w, st)
  | _ => .error .typeError

/-- The `DMEventHandler` state that the auction path touches: the two bidders
(`self.bidders`), the fixed service duration `self.duration`, the service
request counter `self._sr_count`, the winning-price history `self._prices`
keyed by service type and price weight, and the shared random source. -/
structure DMState where
  b0 : Bidder
  b1 : Bidder
  duration : ℚ
  sr_count : ℕ
  prices : ServiceType → ℚ → List BidValue
  prng : PRNG

/-- `self.bidders[i]` for the two-element bidders list. -/
def DMState.getBidder (s : DMState) (i : Fin 2) : Bidder :=
  if i = 0 then s.b0 else s.b1

/-- Replacing `self.bidders[i]` after a mutating call on it. -/
def DMState.setBidder (s : DMState) (i : Fin 2) (b : Bidder) : DMState :=
  if i = 0 then { s with b0 := b } else { s with b1 := b }

/-- The first `submit_bid` call of `_select_winner` (dm.py line 546):
`self.bidders[0].submit_bid(service_type, price_weight,
self.bidders[1].reputation)`. -/
def sw_first (nb : NumericBid) (s : DMState) (st : ServiceType) (w : ℚ) :
    Except PyError BidValue × Bidder × PRNG :=
  submit_bid nb s.b0 s.prng st w s.b1.reputation

/-- The second `submit_bid` call of `_select_winner` (dm.py line 547):
`self.bidders[1].submit_bid(service_type, price_weight,
self.bidders[0].reputation)`, evaluated after the first call has mutated
bidder 0 and consumed its draws. -/
def sw_second (nb : NumericBid) (s : DMState) (st : ServiceType) (w : ℚ) :
    Except PyError BidValue × Bidder × PRNG :=
  submit_bid nb s.b1 (sw_first nb s st w).2.2 st w
    (sw_first nb s st w).2.1.reputation

/-- The compound bid `price_weight*bids[i] + (1-price_weight)*reputation` of
dm.py line 549, as Python float arithmetic evaluates it: a finite bid gives
the exact value; `float('inf')` gives `0.0*inf = nan` (modelled `none`) when
`price_weight` is 0 and `+inf` (modelled `some ⊤`) otherwise.  (A bid is
`infinite` only when `price_weight = 0`, so the negative-weight case cannot
carry an infinite bid.) -/
def compound_py (w : ℚ) (bid : BidValue) (reputation : ℚ) :
    Option (WithTop ℚ) :=
  match bid with
  | .finite b => some ((w * b + (1 - w) * reputation : ℚ) : WithTop ℚ)
  | .infinite => if w = 0 then none else some ⊤

/-- Python float `<` on compound bids: `False` whenever either side is `nan`. -/
def pyLt : Option (WithTop ℚ) → Option (WithTop ℚ) → Bool
  | some a, some b => decide (a < b)
  | _, _ => false

/-- The coin flip `self._simulation_engine.prng.randint(2)` that breaks an
exact tie, drawn after the two `submit_bid` calls have consumed their draws. -/
def sw_coin (nb : NumericBid) (s : DMState) (st : ServiceType) (w : ℚ) : Fin 2 :=
  (nextRandint2 (sw_second nb s st w).2.2).1

/-- `DMEventHandler._select_winner` (dm.py lines 536–559): collect both
bidders' bids, score each bidder by the compound bid, and return the bidder
with the strictly lower score — bidder 0 on `compound_bids[0] <
compound_bids[1]`, bidder 1 on `compound_bids[0] > compound_bids[1]`, and
`self.bidders[prng.randint(2)]` on a tie.  The returned state carries both
mutated bidders and the advanced random source. -/
def select_winner (nb : NumericBid) (s : DMState) (st : ServiceType) (w : ℚ) :
    Except PyError (Fin 2 × DMState) :=
  match (sw_first nb s st w).1 with
  | .error e => .error e
  | .ok bid0 =>
    match (sw_second nb s st w).1 with
    | .error e => .error e
    | .ok bid1 =>
      let nb0 := (sw_first nb s st w).2.1
      let nb1 := (sw_second nb s st w).2.1
      let s1 : DMState := { s with
        b0 := nb0, b1 := nb1, prng := (sw_second nb s st w).2.2 }
      let cb0 := compound_py w bid0 nb0.reputation
      let cb1 := compound_py w bid1 nb1.reputation
      if pyLt cb0 cb1 then .ok (0, s1)
      else if pyLt cb1 cb0 then .ok (1, s1)
      else
        let kp := nextRandint2 s1.prng
        .ok (kp.1, { s1 with prng := kp.2 })

/-- `DMEventHandler._generate_st_event` (dm.py lines 491–499): a
service-termination event at `base_time + self.duration` carrying the passed
bundle — the fixed duration, no random draw. -/
def generate_st_event (s : DMState) (base_time : ℚ) (payload : Payload) :
    Event :=
  { identifier := ST_EVENT, time := base_time + s.duration, payload := payload }

/-- `DMEventHandler._run_auction` (dm.py lines 513–534): increment the request
counter, unpack the buyer's `(price_weight, service_type)`, select the winner
(both bidders submit bids inside `_select_winner`), have the winner submit a
further bid against the loser's reputation to record the winning price, append
that price to `self._prices[service_type][price_weight]`, extend every
bidder's winning history, apply `service_request` to the winner, and schedule
a termination event at `event.time + self.duration`.  The result pairs the new
handler state with the list of events passed to
`self._simulation_engine.schedule`. -/
def run_auction (nb : NumericBid) (s : DMState) (e : Event) :
    Except PyError (DMState × List Event) :=
  let s0 := { s with sr_count := s.sr_count + 1 }
  match event_sr_bundle e with
  | .error err => .error err
  | .ok (w, st) =>
    match select_winner nb s0 st w with
    | .error err => .error err
    | .ok (widx, s1) =>
      let loserIdx : Fin 2 := if widx = 0 then 1 else 0
      let sb := submit_bid nb (s1.getBidder widx) s1.prng st w
                  (s1.getBidder loserIdx).reputation
      match sb.1 with
      | .error err => .error err
      | .ok win_bid =>
        let s2 := { s1.setBidder widx sb.2.1 with prng := sb.2.2 }
        let s3 := { s2 with prices := fun st2 w2 =>
                      if st2 = st ∧ w2 = w then s2.prices st2 w2 ++ [win_bid]
                      else s2.prices st2 w2 }
        let s4 := { s3 with
                    b0 := update_winning_history s3.b0 (decide (widx = 0)),
                    b1 := update_winning_history s3.b1 (decide (widx = 1)) }
        match service_request (s4.getBidder widx) s0.sr_count st with
        | .error err => .error err
        | .ok wb =>
          let s5 := s4.setBidder widx wb
          .ok (s5, [generate_st_event s5 e.time (.stInfo widx s0.sr_count)])

/-! Concrete fixtures used by counterexamples and witnesses. -/

/-- A concrete stand-in for the abstract numeric bidding core (the claims never
depend on its values). -/
def nbZero : NumericBid := fun _ _ _ _ => 0

/-- A concrete uniform draw. -/
def halfDraw : UnitDraw := ⟨1/2, by norm_num, by norm_num⟩

/-- A concrete random source whose tie coin always lands on bidder 0. -/
def prng0 : PRNG :=
  { uniform := fun _ => halfDraw, randint2 := fun _ => 0, uIdx := 0, rIdx := 0 }

/-- A concrete random source whose tie coin always lands on bidder 1. -/
def prngOne : PRNG :=
  { uniform := fun _ => halfDraw, randint2 := fun _ => 1, uIdx := 0, rIdx := 0 }

/-- A fresh bidder as `main.py` constructs them (total bit-rate 10000, myopic
bidding, lebodic reputation update with window size 5), with a preset
web-browsing cost of 1/4. -/
def bidderA : Bidder :=
  { costs := fun st => if st = .webBrowsing then some (1/4) else none,
    reputation := 1/2, total_bitrate := 10000, available_bitrate := 10000,
    reputation_history := [], winning_history := [], success_list := [],
    dedicated_bitrates := [], bidding_method := .myopic,
    reputation_update_method := .lebodic 5 }

/-- Like `bidderA` but with a preset web-browsing cost of 3/4. -/
def bidderB : Bidder :=
  { bidderA with costs := fun st => if st = .webBrowsing then some (3/4) else none }

/-- A bidder bound to the lebodic update with window size 2 whose success list
already holds 2 entries. -/
def bidderC2 : Bidder :=
  { bidderA with reputation_update_method := .lebodic 2, success_list := [1, 0] }

/-- A bidder bound to the mcdiarmid update with commitment 4/5. -/
def bidderM : Bidder :=
  { bidderA with reputation_update_method := .mcdiarmid (4/5) }

/-- A bidder currently servicing request 1 with 512 dedicated bit-rate. -/
def bidderAlloc : Bidder :=
  { bidderA with dedicated_bitrates := [(1, 512)], available_bitrate := 9488 }

/-- A concrete handler state holding two distinct-cost bidders before any
request, with fixed service duration 150. -/
def dmState1 : DMState :=
  { b0 := bidderA, b1 := bidderB, duration := 150, sr_count := 0,
    prices := fun _ _ => [], prng := prng0 }

/-- A concrete service-request arrival at time 0 for web browsing with price
weight 1. -/
def srEvent1 : Event :=
  { identifier := SR_EVENT, time := 0, payload := .srInfo 1 .webBrowsing }

/-- A handler state whose two bidders are identically configured, so that an
auction at price weight 1 is an exact tie, with a random source whose next
coin is 1. -/
def dmStateTie : DMState :=
  { b0 := bidderA, b1 := bidderA, duration := 150, sr_count := 0,
    prices := fun _ _ => [], prng := prngOne }

/-- The allocation branch of `_update_available_bitrate` as a total function
on the bidder state (the branch never raises). -/
def allocBidder (b : Bidder) (sr_number : ℕ) (st : ServiceType) : Bidder :=
  if BITRATES st ≤ b.available_bitrate then
    { b with dedicated_bitrates := dictSet b.dedicated_bitrates sr_number (BITRATES st),
             available_bitrate := b.available_bitrate - BITRATES st }
  else
    { b with dedicated_bitrates := dictSet b.dedicated_bitrates sr_number b.available_bitrate,
             available_bitrate := 0 }

/-- One call of the capacity interface of a bidder, as exercised by the
event handler: a `service_request` after a won auction, or a
`finish_servicing_request` at a termination event. -/
inductive BidderCall where
  | serviceRequest (sr_number : ℕ) (st : ServiceType)
  | finishServicing (sr_number : ℕ)
deriving DecidableEq, Repr

/-- Bound reputation updates that cannot raise inside `service_request`: the
lebodic update with a nonzero window (a zero window is a division by zero)
and the mcdiarmid update with commitment ≠ 1 (commitment 1 is a division by
zero); a bidder whose bound reputation update is the 4-argument bidding
function would raise a `TypeError` mid-call. -/
def safe_reputation_method : BoundMethod → Bool
  | .lebodic ws => ws != 0
  | .mcdiarmid c => c != 1
  | .myopic => false

/-- One step of a call sequence on a bidder.  A raising call leaves the state
unchanged: exact for `finish_servicing_request`, whose `KeyError` precedes
every mutation, and vacuous for `service_request` under the
`safe_reputation_method` hypothesis used below, which makes it total. -/
def stepB (b : Bidder) : BidderCall → Bidder
  | .serviceRequest sr st =>
    match service_request b sr st with
    | .ok b2 => b2
    | .error _ => b
  | .finishServicing sr =>
    match finish_servicing_request b sr with
    | .ok b2 => b2
    | .error _ => b

/-- Run a sequence of capacity calls on a bidder. -/
def runCalls (b : Bidder) (cs : List BidderCall) : Bidder :=
  cs.foldl stepB b

/-- Every `service_request` in the sequence uses a request id that is not
currently allocated — the discipline the event handler guarantees with its
strictly increasing `_sr_count`. -/
def freshAlong (b : Bidder) : List BidderCall → Bool
  | [] => true
  | c :: cs =>
    (match c with
     | .serviceRequest sr _ => (b.dedicated_bitrates.lookup sr).isNone
     | .finishServicing _ => true) && freshAlong (stepB b c) cs

/-- The capacity ledger balances: the available bit-rate plus all dedicated
bit-rates equals the total bit-rate. -/
@[reducible]
def capacityInv (b : Bidder) : Prop :=
  b.available_bitrate + (b.dedicated_bitrates.map Prod.snd).sum
    = b.total_bitrate

/-- The dedicated-bit-rate dict stores distinct keys (as a Python dict does
by construction). -/
@[reducible]
def keysNodup (b : Bidder) : Prop :=
  (b.dedicated_bitrates.map Prod.fst).Nodup

/-! Helper lemmas about the embedded operations. -/

/-- The allocation call never raises and produces `allocBidder`. -/
theorem update_available_bitrate_alloc (b : Bidder) (sr : ℕ)
    (st : ServiceType) :
    update_available_bitrate b sr (some st) = .ok (allocBidder b sr st) := by
  simp only [update_available_bitrate, allocBidder]
  split <;> rfl

@[simp]
theorem allocBidder_success_list (b : Bidder) (sr : ℕ) (st : ServiceType) :
    (allocBidder b sr st).success_list = b.success_list := by
  unfold allocBidder
  split <;> rfl

@[simp]
theorem allocBidder_reputation (b : Bidder) (sr : ℕ) (st : ServiceType) :
    (allocBidder b sr st).reputation = b.reputation := by
  unfold allocBidder
  split <;> rfl

@[simp]
theorem allocBidder_total_bitrate (b : Bidder) (sr : ℕ) (st : ServiceType) :
    (allocBidder b sr st).total_bitrate = b.total_bitrate := by
  unfold allocBidder
  split <;> rfl

@[simp]
theorem allocBidder_method (b : Bidder) (sr : ℕ) (st : ServiceType) :
    (allocBidder b sr st).reputation_update_method
      = b.reputation_update_method := by
  unfold allocBidder
  split <;> rfl

/-- `service_request` in closed form: append the indicator, allocate, then
match on the bound reputation update applied to the appended list. -/
theorem service_request_eq (b : Bidder) (sr : ℕ) (st : ServiceType) :
    service_request b sr st =
      match applyReputationMethod b.reputation_update_method b.reputation
          (b.success_list ++ [if BITRATES st ≤ b.available_bitrate then 1 else 0]) with
      | .error e => .error e
      | .ok r =>
        .ok { allocBidder (update_success_list b st) sr st with
              reputation := r } := by
  simp only [service_request, update_available_bitrate_alloc,
    allocBidder_reputation, allocBidder_success_list, allocBidder_method,
    update_success_list]

/-- Summing the last `n` entries: dropping all but the last `n` sums to taking
`n` from the reversed list. -/
theorem sum_drop_eq_sum_reverse_take (l : List ℕ) (n : ℕ) :
    (l.drop (l.length - n)).sum = (l.reverse.take n).sum := by
  rw [List.take_reverse, List.sum_reverse]

/-- A key looks up to `none` exactly when it is not among the stored keys. -/
theorem lookup_eq_none_iff_keys (d : List (ℕ × ℕ)) (k : ℕ) :
    d.lookup k = none ↔ k ∉ d.map Prod.fst := by
  induction d with
  | nil => simp [List.lookup]
  | cons kv tl ih =>
    cases kv with
    | mk k1 v1 =>
      by_cases h : k = k1
      · subst h
        simp [List.lookup]
      · simp [List.lookup, h, ih, beq_eq_false_iff_ne.mpr h]

/-- Erasing an absent key is the identity. -/
theorem eraseP_key_of_lookup_none (d : List (ℕ × ℕ)) (k : ℕ)
    (h : d.lookup k = none) :
    d.eraseP (fun kv => kv.1 == k) = d := by
  induction d with
  | nil => rfl
  | cons kv tl ih =>
    cases kv with
    | mk k1 v1 =>
      by_cases hk : k = k1
      · subst hk
        simp [List.lookup] at h
      · have htl : tl.lookup k = none := by
          simpa [List.lookup, beq_eq_false_iff_ne.mpr hk] using h
        simp [List.eraseP_cons, beq_eq_false_iff_ne.mpr (Ne.symm hk), ih htl]

/-- Erasing the binding that a successful lookup found removes exactly its
value from the value sum. -/
theorem sum_eraseP_lookup (d : List (ℕ × ℕ)) (k v : ℕ)
    (h : d.lookup k = some v) :
    ((d.eraseP (fun kv => kv.1 == k)).map Prod.snd).sum + v
      = (d.map Prod.snd).sum := by
  induction d with
  | nil => cases h
  | cons kv tl ih =>
    cases kv with
    | mk k1 v1 =>
      by_cases hk : k = k1
      · subst hk
        simp [List.lookup] at h
        subst h
        simp [List.eraseP_cons]
        omega
      · have htl : tl.lookup k = some v := by
          simpa [List.lookup, beq_eq_false_iff_ne.mpr hk] using h
        have := ih htl
        simp [List.eraseP_cons, beq_eq_false_iff_ne.mpr (Ne.symm hk)]
        omega

/-- Erasing preserves distinctness of the stored keys. -/
theorem nodup_keys_eraseP (d : List (ℕ × ℕ)) (k : ℕ)
    (h : (d.map Prod.fst).Nodup) :
    ((d.eraseP (fun kv => kv.1 == k)).map Prod.fst).Nodup :=
  h.sublist ((List.eraseP_sublist d).map Prod.fst)

/-- With distinct keys, the erased key no longer looks up. -/
theorem lookup_eraseP_self_of_nodup (d : List (ℕ × ℕ)) (k : ℕ)
    (h : (d.map Prod.fst).Nodup) :
    (d.eraseP (fun kv => kv.1 == k)).lookup k = none := by
  induction d with
  | nil => rfl
  | cons kv tl ih =>
    cases kv with
    | mk k1 v1 =>
      simp only [List.map, List.nodup_cons] at h
      by_cases hk : k1 = k
      · subst hk
        simp only [List.eraseP_cons, beq_self_eq_true, ite_true]
        exact (lookup_eq_none_iff_keys tl k1).mpr h.1
      · simp only [List.eraseP_cons, beq_eq_false_iff_ne.mpr hk,
          Bool.false_eq_true, ite_false, List.lookup,
          beq_eq_false_iff_ne.mpr (Ne.symm hk)]
        exact ih h.2

/-- Erasing one key leaves every other key's lookup unchanged. -/
theorem lookup_eraseP_ne (d : List (ℕ × ℕ)) (k k2 : ℕ) (h : k2 ≠ k) :
    (d.eraseP (fun kv => kv.1 == k)).lookup k2 = d.lookup k2 := by
  induction d with
  | nil => rfl
  | cons kv tl ih =>
    cases kv with
    | mk k1 v1 =>
      by_cases hk : k1 = k
      · subst hk
        simp [List.eraseP_cons, List.lookup, beq_eq_false_iff_ne.mpr h]
      · by_cases hk2 : k2 = k1
        · subst hk2
          simp [List.eraseP_cons, beq_eq_false_iff_ne.mpr hk, List.lookup]
        · simp [List.eraseP_cons, beq_eq_false_iff_ne.mpr hk, List.lookup,
            beq_eq_false_iff_ne.mpr hk2, ih]

@[simp]
theorem setBidder_duration (s : DMState) (i : Fin 2) (b : Bidder) :
    (s.setBidder i b).duration = s.duration := by
  unfold DMState.setBidder
  split <;> rfl

/-- `_select_winner` never changes the configured service duration. -/
theorem select_winner_duration (nb : NumericBid) (s : DMState)
    (st : ServiceType) (w : ℚ) (widx : Fin 2) (s1 : DMState)
    (h : select_winner nb s st w = .ok (widx, s1)) :
    s1.duration = s.duration := by
  unfold select_winner at h
  split at h
  · cases h
  · split at h
    · cases h
    · dsimp only at h
      split at h
      · simp only [Except.ok.injEq, Prod.mk.injEq] at h
        rw [← h.2]
      · split at h
        · simp only [Except.ok.injEq, Prod.mk.injEq] at h
          rw [← h.2]
        · simp only [Except.ok.injEq, Prod.mk.injEq] at h
          rw [← h.2]

/-! Claim theorems. -/

/-- Claim C5 (code_bug evidence).  `BidderHelper.method`'s control flow reaches
a `raise errors.UnknownMethodError(params)` statement exactly when the
`'method'` key is missing, unknown, or a declared parameter of the named
method is absent, and otherwise returns the named function bound to its
declared parameters — but `src/simulator/errors.py` defines no
`UnknownMethodError` class, so each of those raise sites actually fails with
`AttributeError`, contradicting the claim (and the repository's own tests,
which expect `errors.UnknownMethodError`). -/
theorem method_resolution_error_class_eval :
    "UnknownMethodError" ∉ errorsModuleDefinedClasses ∧
    BidderHelper_method { method := none, window_size := none, commitment := none }
      = .error .attributeError ∧
    BidderHelper_method { method := some "unknown", window_size := none, commitment := none }
      = .error .attributeError ∧
    BidderHelper_method { method := some "lebodic", window_size := none, commitment := none }
      = .error .attributeError ∧
    BidderHelper_method { method := some "mcdiarmid", window_size := none, commitment := none }
      = .error .attributeError ∧
    BidderHelper_method { method := some "lebodic", window_size := some 5, commitment := none }
      = .ok (.lebodic 5) ∧
    BidderHelper_method { method := some "mcdiarmid", window_size := none, commitment := some 1 }
      = .ok (.mcdiarmid 1) ∧
    BidderHelper_method { method := some "myopic", window_size := none, commitment := none }
      = .ok .myopic := by
  refine ⟨by decide, rfl, rfl, rfl, rfl, rfl, rfl, rfl⟩

/-- Claim C7.  For every cost, reputation and enemy reputation (and every
value of the abstract numeric branch): with price weight 0,
`myopic_bidding` returns the infinite sentinel, which differs from every
finite bid; with price weight 1, or with equal reputations and any nonzero
price weight, it returns exactly `(1 + cost) / 2`. -/
theorem myopic_bidding_sentinel_and_closed_form (nb : NumericBid)
    (c r r2 : ℚ) :
    myopic_bidding nb 0 c r r2 = .infinite ∧
    (∀ q : ℚ, BidValue.infinite ≠ BidValue.finite q) ∧
    myopic_bidding nb 1 c r r2 = .finite ((1 + c) / 2) ∧
    (∀ w : ℚ, w ≠ 0 → myopic_bidding nb w c r r = .finite ((1 + c) / 2)) := by
  refine ⟨?_, ?_, ?_, ?_⟩
  · simp [myopic_bidding]
  · intro q h
    cases h
  · simp [myopic_bidding]
  · intro w hw
    simp [myopic_bidding, hw]

/-- Witness for C7 at concrete inputs: price weight 1/2 with equal
reputations. -/
theorem myopic_bidding_sentinel_witness :
    myopic_bidding nbZero (1/2) (1/2) (1/3) (1/3) = .finite ((1 + 1/2) / 2) :=
  (myopic_bidding_sentinel_and_closed_form nbZero (1/2) (1/3) (1/3)).2.2.2
    (1/2) (by norm_num)

unseal Rat.mul Rat.add Rat.inv Rat.sub in
/-- Claim C1 (code_bug evidence).  Running a single auction
(`_run_auction` on a service-request event with price weight 1) leaves the
winner (bidder 0, the lower-cost bidder) with TWO reputation-history entries
and the loser with one, although only one service request was processed:
`_select_winner` invokes `submit_bid` on both bidders and `_run_auction` then
invokes it a second time on the winner to record the winning price. -/
theorem run_auction_double_submit_bid_eval :
    (run_auction nbZero dmState1 srEvent1).toOption.map (fun r =>
      (r.1.b0.reputation_history, r.1.b1.reputation_history, r.1.sr_count)) =
    some ([1/2, 1/2], [1/2], 1) := by decide

unseal Rat.mul Rat.add Rat.inv Rat.sub in
/-- Claim C2 counterexample.  A bidder whose lebodic window size is 2 and
whose success list already holds 2 entries: after one `service_request` the
success list holds 3 entries — the update never evicts the oldest entry, so
the window is not truncated and is not bounded at the window size, refuting
the claim at this input (the claim predicts 2 entries afterwards). -/
theorem lebodic_no_truncation_counterexample :
    (service_request bidderC2 1 .webBrowsing).toOption.map
      (fun b => b.success_list) = some [1, 0, 1] ∧
    ¬ ((service_request bidderC2 1 .webBrowsing).toOption.map
      (fun b => b.success_list.length) = some 2) := by decide

unseal Rat.mul Rat.add Rat.inv Rat.sub in
/-- Claim C6 counterexample.  Releasing a request id that was never allocated
raises the plain dict-lookup `KeyError`, not an `UnknownRequestError` (no such
class exists anywhere in the sources), refuting the claim at this input. -/
theorem finish_servicing_keyerror_counterexample :
    finish_servicing_request bidderA 7 = .error .keyError ∧
    PyError.keyError ≠ PyError.unknownRequestError := by
  exact ⟨rfl, by decide⟩

/-- Claim C9.  `submit_bid` changes nothing but the reputation history (one
appended entry holding the current reputation) and, when no cost is memoized
for the service type yet, the cost map at that type, which receives a value
in [0,1] drawn from the shared source; every other field — reputation, total
and available bit-rate, dedicated bit-rates, success list, winning history —
and every other cost entry is untouched. -/
theorem submit_bid_frame (nb : NumericBid) (b : Bidder) (p : PRNG)
    (st : ServiceType) (w er : ℚ) :
    (submit_bid nb b p st w er).2.1.reputation = b.reputation ∧
    (submit_bid nb b p st w er).2.1.total_bitrate = b.total_bitrate ∧
    (submit_bid nb b p st w er).2.1.available_bitrate = b.available_bitrate ∧
    (submit_bid nb b p st w er).2.1.dedicated_bitrates = b.dedicated_bitrates ∧
    (submit_bid nb b p st w er).2.1.success_list = b.success_list ∧
    (submit_bid nb b p st w er).2.1.winning_history = b.winning_history ∧
    (submit_bid nb b p st w er).2.1.reputation_history
      = b.reputation_history ++ [b.reputation] ∧
    ((b.costs st).isSome = true →
      ∀ st2, (submit_bid nb b p st w er).2.1.costs st2 = b.costs st2) ∧
    (b.costs st = none →
      (∃ c, (submit_bid nb b p st w er).2.1.costs st = some c ∧
            0 ≤ c ∧ c ≤ 1) ∧
      ∀ st2, st2 ≠ st →
        (submit_bid nb b p st w er).2.1.costs st2 = b.costs st2) := by
  cases hc : b.costs st with
  | some c =>
    simp [submit_bid, generate_cost, hc]
  | none =>
    simp [submit_bid, generate_cost, hc, nextUniform]
    exact ⟨⟨(p.uniform p.uIdx).nonneg, (p.uniform p.uIdx).le_one⟩,
           fun st2 h2 => by simp [h2]⟩

/-- Witness for C9: a bidder with no memoized email cost receives one in
[0,1], with the web-browsing entry untouched. -/
theorem submit_bid_frame_witness :
    (∃ c, (submit_bid nbZero bidderA prng0 .email 1 0).2.1.costs .email
            = some c ∧ 0 ≤ c ∧ c ≤ 1) ∧
    (submit_bid nbZero bidderA prng0 .email 1 0).2.1.costs .webBrowsing
      = bidderA.costs .webBrowsing := by
  have h := submit_bid_frame nbZero bidderA prng0 .email 1 0
  have hnone : bidderA.costs .email = none := rfl
  exact ⟨(h.2.2.2.2.2.2.2.2 hnone).1,
         (h.2.2.2.2.2.2.2.2 hnone).2 .webBrowsing (by decide)⟩

/-- Claim C10.  `mcdiarmids_reputation_update` reads `success_list[-1]` and so
raises `IndexError` on an empty list and only then; `Bidder.service_request`
appends a success indicator before invoking the bound update, so a
mcdiarmid-bound `service_request` can never raise that `IndexError`. -/
theorem mcdiarmid_nonempty_access :
    (∀ c r : ℚ, mcdiarmids_reputation_update c r [] = .error .indexError) ∧
    (∀ (c r : ℚ) (sl : List ℕ), sl ≠ [] →
      mcdiarmids_reputation_update c r sl ≠ .error .indexError) ∧
    (∀ (b : Bidder) (sr : ℕ) (st : ServiceType) (c : ℚ),
      b.reputation_update_method = .mcdiarmid c →
      service_request b sr st ≠ .error .indexError) := by
  have hne : ∀ (c r : ℚ) (sl : List ℕ), sl ≠ [] →
      mcdiarmids_reputation_update c r sl ≠ .error .indexError := by
    intro c r sl hsl
    cases hlast : sl.getLast? with
    | none => exact absurd (List.getLast?_eq_none_iff.mp hlast) hsl
    | some s =>
      simp only [mcdiarmids_reputation_update, hlast]
      split
      · simp
      · split <;> simp
  refine ⟨fun c r => rfl, hne, ?_⟩
  intro b sr st c hm
  rw [service_request_eq, hm]
  simp only [applyReputationMethod]
  cases hrep : mcdiarmids_reputation_update c b.reputation
      (b.success_list ++ [if BITRATES st ≤ b.available_bitrate then 1 else 0]) with
  | error e =>
    have hdiff := hne c b.reputation
      (b.success_list ++ [if BITRATES st ≤ b.available_bitrate then 1 else 0])
      (by simp)
    rw [hrep] at hdiff
    simpa using hdiff
  | ok q => simp

/-- Witness for C10: a concrete mcdiarmid-bound bidder's `service_request`
does not raise `IndexError`, and the update on a concrete nonempty list
succeeds. -/
theorem mcdiarmid_nonempty_access_witness :
    service_request bidderM 3 .email ≠ .error .indexError ∧
    mcdiarmids_reputation_update (4/5) (1/2) [1] ≠ .error .indexError :=
  ⟨mcdiarmid_nonempty_access.2.2 bidderM 3 .email (4/5) rfl,
   mcdiarmid_nonempty_access.2.1 (4/5) (1/2) [1] (by decide)⟩

/-- Claim C2 as amended.  For every window size and success sequence the
windowed-failure-rate update leaves reputation unchanged below the window
size, and at or above it (with a positive window size) returns 1 minus the
mean of the most recent `n` entries — but the update is pure: the success
window is never truncated, and each `service_request` grows it by exactly the
one appended indicator. -/
theorem lebodic_update_amended (n : ℕ) (rep : ℚ) (sl : List ℕ) :
    (sl.length < n → lebodics_reputation_update n rep sl = .ok rep) ∧
    (n ≤ sl.length → n ≠ 0 →
      lebodics_reputation_update n rep sl =
        .ok (1 - ((sl.reverse.take n).sum : ℚ) / (n : ℚ))) ∧
    (∀ (b : Bidder) (sr : ℕ) (st : ServiceType) (b2 : Bidder),
      b.reputation_update_method = .lebodic n →
      service_request b sr st = .ok b2 →
      b2.success_list = b.success_list ++
        [if BITRATES st ≤ b.available_bitrate then 1 else 0]) := by
  refine ⟨?_, ?_, ?_⟩
  · intro h
    simp [lebodics_reputation_update, Nat.not_le.mpr h]
  · intro hle hn
    simp only [lebodics_reputation_update, if_pos hle, if_neg hn]
    rw [← sum_drop_eq_sum_reverse_take]
  · intro b sr st b2 hm hok
    rw [service_request_eq] at hok
    revert hok
    split
    · intro h
      cases h
    · intro h
      cases h
      simp [update_success_list]

/-- Witness for C2 at concrete inputs: a short success list leaves reputation
untouched; a window of 2 over [1, 0, 1] yields 1 minus the mean of the last
two entries. -/
theorem lebodic_update_amended_witness :
    lebodics_reputation_update 5 (1/2) [1, 0] = .ok (1/2) ∧
    lebodics_reputation_update 2 (1/2) [1, 0, 1] =
      .ok (1 - ((([1, 0, 1] : List ℕ).reverse.take 2).sum : ℚ) / (2 : ℚ)) :=
  ⟨(lebodic_update_amended 5 (1/2) [1, 0]).1 (by decide),
   (lebodic_update_amended 2 (1/2) [1, 0, 1]).2.1 (by decide) (by decide)⟩

/-- Claim C6 as amended.  Releasing a never-allocated request id raises the
dict-lookup `KeyError` (there is no `UnknownRequestError` class in the
repository) and mutates nothing — the lookup precedes every mutation; on an
allocated id, exactly the dedicated bit-rate returns to the available pool
and the dedication record is removed (its key no longer resolves when the
stored keys are distinct, and all other records are untouched). -/
theorem finish_servicing_request_amended (b : Bidder) (sr : ℕ) :
    (b.dedicated_bitrates.lookup sr = none →
      finish_servicing_request b sr = .error .keyError) ∧
    (∀ v, b.dedicated_bitrates.lookup sr = some v →
      ∃ b2, finish_servicing_request b sr = .ok b2 ∧
        b2.available_bitrate = b.available_bitrate + v ∧
        (b2.dedicated_bitrates.map Prod.snd).sum + v
          = (b.dedicated_bitrates.map Prod.snd).sum ∧
        ((b.dedicated_bitrates.map Prod.fst).Nodup →
          b2.dedicated_bitrates.lookup sr = none) ∧
        (∀ k2, k2 ≠ sr →
          b2.dedicated_bitrates.lookup k2
            = b.dedicated_bitrates.lookup k2)) := by
  constructor
  · intro h
    simp [finish_servicing_request, update_available_bitrate, h]
  · intro v h
    refine ⟨{ b with
              dedicated_bitrates := dictDel b.dedicated_bitrates sr,
              available_bitrate := b.available_bitrate + v }, ?_, rfl,
            sum_eraseP_lookup b.dedicated_bitrates sr v h,
            fun hnd => lookup_eraseP_self_of_nodup b.dedicated_bitrates sr hnd,
            fun k2 hk2 => lookup_eraseP_ne b.dedicated_bitrates sr k2 hk2⟩
    simp [finish_servicing_request, update_available_bitrate, h]

/-- Witness for C6: a bidder servicing request 1 with 512 dedicated bit-rate
gets exactly those 512 back on release. -/
theorem finish_servicing_request_amended_witness :
    bidderAlloc.dedicated_bitrates.lookup 1 = some 512 ∧
    (∃ b2, finish_servicing_request bidderAlloc 1 = .ok b2 ∧
      b2.available_bitrate = bidderAlloc.available_bitrate + 512) := by
  have h := (finish_servicing_request_amended bidderAlloc 1).2 512 rfl
  exact ⟨rfl, h.elim (fun b2 hb2 => ⟨b2, hb2.1, hb2.2.1⟩)⟩

/-- A safe bound reputation update applied to a list with an appended entry
always succeeds. -/
theorem applyReputationMethod_concat_ok (m : BoundMethod) (r : ℚ)
    (sl : List ℕ) (x : ℕ) (hsafe : safe_reputation_method m = true) :
    ∃ q, applyReputationMethod m r (sl ++ [x]) = .ok q := by
  cases m with
  | lebodic ws =>
    have hws : ws ≠ 0 := by simpa [safe_reputation_method] using hsafe
    simp only [applyReputationMethod, lebodics_reputation_update]
    split
    · simp [hws]
    · exact ⟨r, rfl⟩
  | mcdiarmid c =>
    have hc : c ≠ 1 := by simpa [safe_reputation_method] using hsafe
    have hsub : (1 : ℚ) - c ≠ 0 := sub_ne_zero.mpr (Ne.symm hc)
    simp only [applyReputationMethod, mcdiarmids_reputation_update,
      List.getLast?_concat]
    split
    · exact ⟨_, rfl⟩
    · simp [hsub]
  | myopic => simp [safe_reputation_method] at hsafe

/-- A safe `service_request` step produces exactly the indicator append plus
the allocation, with some updated reputation. -/
theorem stepB_serviceRequest_spec (b : Bidder) (sr : ℕ) (st : ServiceType)
    (hsafe : safe_reputation_method b.reputation_update_method = true) :
    ∃ q, stepB b (.serviceRequest sr st) =
      { allocBidder (update_success_list b st) sr st with reputation := q } := by
  obtain ⟨q, hq⟩ := applyReputationMethod_concat_ok b.reputation_update_method
    b.reputation b.success_list
    (if BITRATES st ≤ b.available_bitrate then 1 else 0) hsafe
  refine ⟨q, ?_⟩
  simp only [stepB, service_request_eq, hq]

/-- Allocation with a fresh request id keeps the keys distinct and the
capacity ledger balanced. -/
theorem allocBidder_preserves (b : Bidder) (sr : ℕ) (st : ServiceType)
    (hnd : keysNodup b) (hinv : capacityInv b)
    (hfresh : b.dedicated_bitrates.lookup sr = none) :
    keysNodup (allocBidder b sr st) ∧ capacityInv (allocBidder b sr st) := by
  have herase := eraseP_key_of_lookup_none b.dedicated_bitrates sr hfresh
  have hmem := (lookup_eq_none_iff_keys b.dedicated_bitrates sr).mp hfresh
  by_cases hcap : BITRATES st ≤ b.available_bitrate
  · constructor
    · simp only [keysNodup, allocBidder, if_pos hcap, dictSet, herase,
        List.map_cons, List.nodup_cons]
      exact ⟨hmem, hnd⟩
    · simp only [capacityInv, allocBidder, if_pos hcap, dictSet, herase,
        List.map_cons, List.sum_cons]
      omega
  · constructor
    · simp only [keysNodup, allocBidder, if_neg hcap, dictSet, herase,
        List.map_cons, List.nodup_cons]
      exact ⟨hmem, hnd⟩
    · simp only [capacityInv, allocBidder, if_neg hcap, dictSet, herase,
        List.map_cons, List.sum_cons]
      omega

/-- One step of any capacity call — a `service_request` on a not-currently-
allocated request id, or any `finish_servicing_request` — preserves the
bound-method safety, the key distinctness and the capacity ledger. -/
theorem stepB_preserves (b : Bidder) (c : BidderCall)
    (hsafe : safe_reputation_method b.reputation_update_method = true)
    (hnd : keysNodup b) (hinv : capacityInv b)
    (hfresh : (match c with
      | .serviceRequest sr _ => (b.dedicated_bitrates.lookup sr).isNone
      | .finishServicing _ => true) = true) :
    safe_reputation_method (stepB b c).reputation_update_method = true ∧
    keysNodup (stepB b c) ∧ capacityInv (stepB b c) := by
  cases c with
  | serviceRequest sr st =>
    have hlook : b.dedicated_bitrates.lookup sr = none :=
      Option.isNone_iff_eq_none.mp hfresh
    obtain ⟨q, hq⟩ := stepB_serviceRequest_spec b sr st hsafe
    rw [hq]
    have hpres := allocBidder_preserves (update_success_list b st) sr st
      (by simpa [keysNodup, update_success_list] using hnd)
      (by simpa [capacityInv, update_success_list] using hinv)
      (by simpa [update_success_list] using hlook)
    refine ⟨?_, ?_, ?_⟩
    · simpa [update_success_list] using hsafe
    · simpa [keysNodup] using hpres.1
    · simpa [capacityInv] using hpres.2
  | finishServicing sr =>
    cases hlook : b.dedicated_bitrates.lookup sr with
    | none =>
      have : stepB b (.finishServicing sr) = b := by
        simp [stepB, finish_servicing_request, update_available_bitrate, hlook]
      rw [this]
      exact ⟨hsafe, hnd, hinv⟩
    | some v =>
      have hstep : stepB b (.finishServicing sr) =
          { b with dedicated_bitrates := dictDel b.dedicated_bitrates sr,
                   available_bitrate := b.available_bitrate + v } := by
        simp [stepB, finish_servicing_request, update_available_bitrate, hlook]
      rw [hstep]
      have hsum := sum_eraseP_lookup b.dedicated_bitrates sr v hlook
      refine ⟨hsafe, ?_, ?_⟩
      · exact nodup_keys_eraseP b.dedicated_bitrates sr hnd

      · simp only [capacityInv, dictDel]
        omega

/-- Unfolding `freshAlong` over a cons cell. -/
theorem freshAlong_cons (b : Bidder) (c : BidderCall) (cs : List BidderCall) :
    freshAlong b (c :: cs) =
      ((match c with
        | .serviceRequest sr _ => (b.dedicated_bitrates.lookup sr).isNone
        | .finishServicing _ => true) && freshAlong (stepB b c) cs) := by
  cases c <;> rfl

/-- Claim C3 as amended.  For every bidder with a well-formed bound
reputation update, starting from distinct dict keys and a balanced capacity
ledger, and for every call sequence in which each `service_request` uses a
request id not currently allocated (the discipline the handler's strictly
increasing counter enforces), the invariant `0 ≤ available_capacity ≤
total_capacity` and `available_capacity + Σ dedicated = total_capacity` holds
after every call. -/
theorem capacity_invariant_fresh_requests (b : Bidder) (cs : List BidderCall)
    (hsafe : safe_reputation_method b.reputation_update_method = true)
    (hnd : keysNodup b) (hinv : capacityInv b)
    (hfresh : freshAlong b cs = true) :
    (runCalls b cs).available_bitrate ≤ (runCalls b cs).total_bitrate ∧
    (runCalls b cs).available_bitrate
      + ((runCalls b cs).dedicated_bitrates.map Prod.snd).sum
      = (runCalls b cs).total_bitrate := by
  induction cs generalizing b with
  | nil =>
    exact ⟨Nat.le.intro hinv, hinv⟩
  | cons c cs ih =>
    rw [freshAlong_cons, Bool.and_eq_true] at hfresh
    have hstep := stepB_preserves b c hsafe hnd hinv hfresh.1
    have := ih (stepB b c) hstep.1 hstep.2.1 hstep.2.2 hfresh.2
    simpa [runCalls, List.foldl_cons] using this

unseal Rat.mul Rat.add Rat.inv Rat.sub in
/-- Witness for C3: a fresh allocation followed by its release on a concrete
bidder keeps the ledger balanced. -/
theorem capacity_invariant_fresh_requests_witness :
    (runCalls bidderA [.serviceRequest 1 .webBrowsing, .finishServicing 1]).available_bitrate
      ≤ (runCalls bidderA [.serviceRequest 1 .webBrowsing, .finishServicing 1]).total_bitrate ∧
    (runCalls bidderA [.serviceRequest 1 .webBrowsing, .finishServicing 1]).available_bitrate
      + ((runCalls bidderA [.serviceRequest 1 .webBrowsing, .finishServicing 1]).dedicated_bitrates.map Prod.snd).sum
      = (runCalls bidderA [.serviceRequest 1 .webBrowsing, .finishServicing 1]).total_bitrate :=
  capacity_invariant_fresh_requests bidderA
    [.serviceRequest 1 .webBrowsing, .finishServicing 1]
    (by decide) (by decide) (by decide) (by decide)

unseal Rat.mul Rat.add Rat.inv Rat.sub in
/-- Claim C3 counterexample.  Two `service_request` calls reusing the same
request id silently overwrite the dedication record: afterwards the available
bit-rate plus the dedicated sum is 9488, not the total 10000, refuting the
claim for arbitrary call sequences. -/
theorem capacity_invariant_counterexample :
    ¬ ((runCalls bidderA [.serviceRequest 1 .webBrowsing,
          .serviceRequest 1 .webBrowsing]).available_bitrate
        + ((runCalls bidderA [.serviceRequest 1 .webBrowsing,
            .serviceRequest 1 .webBrowsing]).dedicated_bitrates.map
            Prod.snd).sum
        = (runCalls bidderA [.serviceRequest 1 .webBrowsing,
            .serviceRequest 1 .webBrowsing]).total_bitrate) := by decide

/-- Claim C4.  Whenever `_select_winner` returns a winner and both submitted
bids are finite values, each bidder is scored by the compound bid
`price_weight × bid + (1 − price_weight) × reputation`: the bidder with the
strictly lower compound bid wins, and on an exact tie the winner is the
bidder indexed by the next `randint(2)` draw of the shared random source —
each of the two equiprobable draw values selects a distinct bidder, an
unbiased coin flip. -/
theorem select_winner_compound_bid (nb : NumericBid) (s : DMState)
    (st : ServiceType) (w : ℚ) (widx : Fin 2) (q0 q1 : ℚ)
    (h0 : (sw_first nb s st w).1 = .ok (.finite q0))
    (h1 : (sw_second nb s st w).1 = .ok (.finite q1))
    (hw : (select_winner nb s st w).map Prod.fst = .ok widx) :
    (w * q0 + (1 - w) * (sw_first nb s st w).2.1.reputation
       < w * q1 + (1 - w) * (sw_second nb s st w).2.1.reputation →
       widx = 0) ∧
    (w * q1 + (1 - w) * (sw_second nb s st w).2.1.reputation
       < w * q0 + (1 - w) * (sw_first nb s st w).2.1.reputation →
       widx = 1) ∧
    (w * q0 + (1 - w) * (sw_first nb s st w).2.1.reputation
       = w * q1 + (1 - w) * (sw_second nb s st w).2.1.reputation →
       widx = sw_coin nb s st w) := by
  unfold select_winner at hw
  rw [h0, h1] at hw
  simp only [compound_py, pyLt] at hw
  by_cases hlt : w * q0 + (1 - w) * (sw_first nb s st w).2.1.reputation
      < w * q1 + (1 - w) * (sw_second nb s st w).2.1.reputation
  · rw [if_pos (decide_eq_true (WithTop.coe_lt_coe.mpr hlt))] at hw
    simp only [Except.map, Except.ok.injEq] at hw
    refine ⟨fun _ => hw.symm, fun hgt => absurd hlt (lt_asymm hgt), ?_⟩
    intro heq
    exact absurd (heq ▸ hlt) (lt_irrefl _)
  · rw [if_neg (fun hcoe =>
      hlt (WithTop.coe_lt_coe.mp (of_decide_eq_true hcoe)))] at hw
    by_cases hgt : w * q1 + (1 - w) * (sw_second nb s st w).2.1.reputation
        < w * q0 + (1 - w) * (sw_first nb s st w).2.1.reputation
    · rw [if_pos (decide_eq_true (WithTop.coe_lt_coe.mpr hgt))] at hw
      simp only [Except.map, Except.ok.injEq] at hw
      refine ⟨fun hlt2 => absurd hlt2 hlt, fun _ => hw.symm, ?_⟩
      intro heq
      exact absurd (heq ▸ hgt) (lt_irrefl _)
    · rw [if_neg (fun hcoe =>
        hgt (WithTop.coe_lt_coe.mp (of_decide_eq_true hcoe)))] at hw
      simp only [Except.map, Except.ok.injEq] at hw
      exact ⟨fun hlt2 => absurd hlt2 hlt, fun hgt2 => absurd hgt2 hgt,
             fun _ => hw.symm⟩

unseal Rat.mul Rat.add Rat.inv Rat.sub in
/-- Witness for C4: an exact tie between two identically configured bidders
is broken by the next coin draw (here 1, selecting bidder 1). -/
theorem select_winner_compound_bid_witness :
    (1 : Fin 2) = sw_coin nbZero dmStateTie .webBrowsing 1 :=
  (select_winner_compound_bid nbZero dmStateTie .webBrowsing 1 1 (5/8) (5/8)
    (by rfl) (by rfl) (by rfl)).2.2 (by decide)

/-- Claim C8.  Whenever `_run_auction` completes on a service-request arrival
at time `t`, it schedules exactly one event: a service-termination event for
the auction's winner (the bidder returned by `_select_winner`, recorded in the
event bundle with the request number), at exactly `t + duration` for the
configured fixed service duration — no random draw enters the termination
time. -/
theorem st_event_fixed_duration (nb : NumericBid) (s : DMState) (e : Event)
    (w : ℚ) (st : ServiceType) (r : DMState × List Event)
    (hbundle : e.payload = .srInfo w st)
    (hrun : run_auction nb s e = .ok r) :
    ∃ widx : Fin 2,
      r.2 = [{ identifier := ST_EVENT, time := e.time + s.duration,
               payload := .stInfo widx (s.sr_count + 1) }] ∧
      ∃ s1, select_winner nb { s with sr_count := s.sr_count + 1 } st w
              = .ok (widx, s1) := by
  unfold run_auction at hrun
  dsimp only at hrun
  split at hrun
  · rename_i err heq
    rw [show event_sr_bundle e = .ok (w, st) by
      simp [event_sr_bundle, hbundle]] at heq
    cases heq
  · rename_i w2 st2 heq
    rw [show event_sr_bundle e = .ok (w, st) by
      simp [event_sr_bundle, hbundle]] at heq
    obtain ⟨rfl, rfl⟩ : w = w2 ∧ st = st2 := by
      simpa using heq
    split at hrun
    · cases hrun
    · rename_i widx s1 heqsel
      split at hrun
      · cases hrun
      · rename_i win_bid heqbid
        split at hrun
        · cases hrun
        · rename_i wb heqserv
          simp only [Except.ok.injEq] at hrun
          subst hrun
          refine ⟨widx, ?_, ⟨s1, heqsel⟩⟩
          have hdur := select_winner_duration nb
            { s with sr_count := s.sr_count + 1 } st w widx s1 heqsel
          simp [generate_st_event, hdur]

unseal Rat.mul Rat.add Rat.inv Rat.sub in
/-- Witness for C8: the concrete auction at time 0 schedules exactly one
termination event at `0 + 150`. -/
theorem st_event_fixed_duration_witness :
    ∃ (r : DMState × List Event) (widx : Fin 2),
      run_auction nbZero dmState1 srEvent1 = .ok r ∧
      r.2 = [{ identifier := ST_EVENT,
               time := srEvent1.time + dmState1.duration,
               payload := .stInfo widx (dmState1.sr_count + 1) }] := by
  have hsome : (run_auction nbZero dmState1 srEvent1).toOption.isSome
      = true := by decide
  cases hrun : run_auction nbZero dmState1 srEvent1 with
  | error err =>
    rw [hrun] at hsome
    cases hsome
  | ok r =>
    obtain ⟨widx, h1, h2⟩ := st_event_fixed_duration nbZero dmState1 srEvent1
      1 .webBrowsing r rfl hrun
    exact ⟨r, widx, rfl, h1⟩

end DMSim
